import Mathlib

/-!
Verification of the tennis-odds-scraper aggregation core.

Shallow embedding of the odds-comparator pipeline
(`comparator.py`, `utils/helpers.py`) in Lean 4.

Modelling conventions:
* Python floats are idealised as exact rationals (`ℚ`); `round(x, 2)`
  (round-half-to-even to two decimals) is modelled exactly on `ℚ` by
  `pyRound2`.
* Python dicts holding match records become structures; a field that may
  be absent or `None` becomes an `Option`.
* Python's insertion-ordered `dict` used for grouping becomes an
  insertion-ordered association list (`insertGrouped` / `groupByKey`).
* Python's stable `list.sort(key=...)` is modelled by the stable
  `List.insertionSort` (extensionally equal to any stable sort by the
  same key).
* String handling (`str.split()`, `str.title()`, `str.replace`) is
  modelled character-by-character for the ASCII fragment the data uses.
* Wall-clock fields (`timestamp`) are omitted: they carry no information
  about the program logic.
-/

namespace TennisOdds

/- Batteries marks the `Rat` arithmetic operations `irreducible`, which
blocks kernel evaluation of concrete rationals by `decide`; restore the
default reducibility locally so that concrete runs of the embedded
program evaluate. -/
attribute [local semireducible] Rat.add Rat.mul Rat.inv Rat.sub

/-! ### Market math (`utils/helpers.py`) -/

/-- Embeds `calculate_implied_probability` (helpers.py lines 217-229):
sentinel `0.0` for non-positive odds, else `(1 / odds) * 100`. -/
def calculate_implied_probability (odds : ℚ) : ℚ :=
  if odds ≤ 0 then 0 else (1 / odds) * 100

/-- Embeds `calculate_bookmaker_margin` (helpers.py lines 232-249):
returns the sentinel `0.0` when either odds is `<= 0`, otherwise
`((1/odds1 + 1/odds2) - 1) * 100`. -/
def calculate_bookmaker_margin (odds1 odds2 : ℚ) : ℚ :=
  if odds1 ≤ 0 ∨ odds2 ≤ 0 then 0
  else (1 / odds1 + 1 / odds2 - 1) * 100

/-! ### Python `round(x, 2)` on rationals -/

/-- Round a rational to the nearest integer, ties to the even integer
(the rounding Python's `round` uses, idealised over `ℚ`). -/
def roundHalfEven (q : ℚ) : ℤ :=
  if q - ⌊q⌋ < 1 / 2 then ⌊q⌋
  else if q - ⌊q⌋ > 1 / 2 then ⌊q⌋ + 1
  else if ⌊q⌋ % 2 = 0 then ⌊q⌋ else ⌊q⌋ + 1

/-- Python's `round(x, 2)` idealised on `ℚ`. -/
def pyRound2 (q : ℚ) : ℚ :=
  (roundHalfEven (q * 100) : ℚ) / 100

/-! ### String helpers used by `normalize_player_names`

Python's `' '.join(s.split())`, `str.title()` and `str.replace` for the
ASCII fragment, modelled on `List Char`. -/

/-- Split into maximal whitespace-free words, dropping empty pieces,
exactly as Python's argumentless `str.split()` does. `cur` accumulates
the current word in reverse. -/
def wordsAux (cur : List Char) : List Char → List (List Char)
  | [] => if cur.isEmpty then [] else [cur.reverse]
  | c :: cs =>
    if c.isWhitespace then
      if cur.isEmpty then wordsAux [] cs else cur.reverse :: wordsAux [] cs
    else wordsAux (c :: cur) cs

/-- Interleave single spaces between words (Python `' '.join(...)`). -/
def joinSpaces : List (List Char) → List Char
  | [] => []
  | [w] => w
  | w :: ws => w ++ ' ' :: joinSpaces ws

/-- `' '.join(player.split())`: collapse whitespace runs and trim. -/
def collapseWs (s : String) : String :=
  ⟨joinSpaces (wordsAux [] s.data)⟩

/-- Python `str.title()` on the ASCII fragment: a letter is uppercased
when the previous character is not a letter, lowercased otherwise. -/
def titleAux (prevAlpha : Bool) : List Char → List Char
  | [] => []
  | c :: cs =>
    (if c.isAlpha then (if prevAlpha then c.toLower else c.toUpper) else c)
      :: titleAux c.isAlpha cs

/-- Python `str.title()`. -/
def pyTitle (s : String) : String :=
  ⟨titleAux false s.data⟩

/-- One fuel-indexed pass of Python `str.replace`: replace every
(non-overlapping, leftmost-first) occurrence of `pat` by `repl`.
The fuel is an upper bound on the number of characters consumed; each
step consumes at least one character, so `s.length` fuel suffices. -/
def listReplaceFuel (pat repl : List Char) : Nat → List Char → List Char
  | 0, s => s
  | _ + 1, [] => []
  | fuel + 1, c :: cs =>
    if !pat.isEmpty && pat.isPrefixOf (c :: cs) then
      repl ++ listReplaceFuel pat repl fuel ((c :: cs).drop pat.length)
    else
      c :: listReplaceFuel pat repl fuel cs

/-- Python `s.replace(pat, repl)` for a non-empty pattern (the program
only uses the patterns `"N."` and `"R."`). -/
def pyReplace (s pat repl : String) : String :=
  ⟨listReplaceFuel pat.data repl.data s.data.length s.data⟩

/-! ### The comparator (`comparator.py`) -/

/-- One normalized match record, the dict shape produced by the scrapers
and consumed by `OddsComparator` (see `base_scraper.py` lines 169-181).
The wall-clock `timestamp` field is omitted. -/
structure MatchRec where
  player1 : String
  player2 : String
  odds_player1 : ℚ
  odds_player2 : ℚ
  bookmaker : String
  tournament : String
  match_date : String
  match_time : String
deriving DecidableEq, Repr

/-- Embeds `OddsComparator.normalize_player_names` (comparator.py lines
59-79): collapse spaces, title-case, then expand the two fixed
abbreviations (the `replace` calls run after `title()`). -/
def normalize_player_names (player : String) : String :=
  pyReplace (pyReplace (pyTitle (collapseWs player)) "N." "Novak") "R." "Rafael"

/-- Lexicographic comparison of character lists, the order Python's
`<` uses on strings (by code point). -/
def charListLt : List Char → List Char → Bool
  | _, [] => false
  | [], _ :: _ => true
  | a :: as, b :: bs => a < b || (a = b && charListLt as bs)

/-- Python's `a < b` on strings. -/
def pyStrLt (a b : String) : Bool :=
  charListLt a.data b.data

/-- Python `sorted([a, b])` for two strings (lexicographic by code
point, stable). -/
def sortPair (a b : String) : String × String :=
  if pyStrLt b a then (b, a) else (a, b)

/-- The canonical matchup key built at comparator.py lines 94-99:
normalize both names and sort the pair. -/
def matchKey (m : MatchRec) : String × String :=
  sortPair (normalize_player_names m.player1) (normalize_player_names m.player2)

/-! Insertion-ordered grouping, the behaviour of the Python `dict` in
`group_matches_by_players`: a new key is appended at the end, a record
with an existing key is appended to that key's list. -/

section GroupBy

variable {κ α : Type} [DecidableEq κ]

/-- Append `x` to the bucket of key `k`, creating the bucket at the end
if absent (Python `dict` insertion order plus `list.append`). -/
def insertGrouped (k : κ) (x : α) : List (κ × List α) → List (κ × List α)
  | [] => [(k, [x])]
  | p :: rest =>
    if p.1 = k then (p.1, p.2 ++ [x]) :: rest else p :: insertGrouped k x rest

/-- Group a list by a key function, preserving first-seen key order and
within-bucket input order. -/
def groupByKey (key : α → κ) (xs : List α) : List (κ × List α) :=
  xs.foldl (fun g x => insertGrouped (key x) x g) []

/-- The bucket an association list assigns to a key (empty when the key
is absent). -/
def lookupG (k : κ) (g : List (κ × List α)) : List α :=
  ((g.find? fun p => decide (p.1 = k)).map Prod.snd).getD []

end GroupBy

/-- Embeds `OddsComparator.group_matches_by_players` (comparator.py
lines 81-106). -/
def group_matches_by_players (ms : List MatchRec) :
    List ((String × String) × List MatchRec) :=
  groupByKey matchKey ms

/-- Result quadruple of `calculate_arbitrage`:
`(is_arbitrage, profit_pct, stake1_pct, stake2_pct)`. -/
structure ArbResult where
  is_arbitrage : Bool
  profit_pct : ℚ
  stake1_pct : ℚ
  stake2_pct : ℚ
deriving DecidableEq, Repr

/-- Embeds `OddsComparator.calculate_arbitrage` (comparator.py lines
148-178). -/
def calculate_arbitrage (odds1 odds2 : ℚ) : ArbResult :=
  if odds1 ≤ 0 ∨ odds2 ≤ 0 then ⟨false, 0, 0, 0⟩
  else
    let inverse_sum := 1 / odds1 + 1 / odds2
    if inverse_sum < 1 then
      ⟨true, (1 / inverse_sum - 1) * 100,
        (1 / odds1) / inverse_sum * 100, (1 / odds2) / inverse_sum * 100⟩
    else ⟨false, 0, 0, 0⟩

/-- `max(m['odds_player1'] for m in match_group)` (comparator.py line
206). Python's `max` raises on an empty sequence; both call sites only
reach it with a non-empty group, so the `[]` value is arbitrary. -/
def maxOdds1 : List MatchRec → ℚ
  | [] => 0
  | m :: rest => rest.foldl (fun acc x => max acc x.odds_player1) m.odds_player1

/-- `max(m['odds_player2'] for m in match_group)` (comparator.py line
207). -/
def maxOdds2 : List MatchRec → ℚ
  | [] => 0
  | m :: rest => rest.foldl (fun acc x => max acc x.odds_player2) m.odds_player2

/-- `next(m['bookmaker'] for m in match_group if m['odds_player1'] ==
best_odds1)` (comparator.py lines 210-213): the first group member
offering the given odds for player 1. The maximum is attained in the
group at every call site, so the `""` default is unreachable. -/
def firstBookmaker1 (g : List MatchRec) (best : ℚ) : String :=
  ((g.find? fun m => decide (m.odds_player1 = best)).map MatchRec.bookmaker).getD ""

/-- Lines 214-217, the same for player 2. -/
def firstBookmaker2 (g : List MatchRec) (best : ℚ) : String :=
  ((g.find? fun m => decide (m.odds_player2 = best)).map MatchRec.bookmaker).getD ""

/-- The opportunity dict built at comparator.py lines 226-240 (the
wall-clock `timestamp` field is omitted). `profit_pct` and the two
stake fields hold the `round(..., 2)` of the computed values, exactly
as in the source. -/
structure Opportunity where
  player1 : String
  player2 : String
  tournament : String
  best_odds1 : ℚ
  best_odds2 : ℚ
  bookmaker1 : String
  bookmaker2 : String
  profit_pct : ℚ
  stake1_pct : ℚ
  stake2_pct : ℚ
  match_date : String
  match_time : String
deriving DecidableEq, Repr

/-- The body of the `for (player1, player2), match_group in
grouped.items()` loop of `find_arbitrage_opportunities` (comparator.py
lines 200-240) for a single group: `none` when the group is skipped,
`some opp` when an opportunity is appended. -/
def processGroup (min_profit : ℚ) (k : String × String) (g : List MatchRec) :
    Option Opportunity :=
  if g.length < 2 then none
  else
    let best_odds1 := maxOdds1 g
    let best_odds2 := maxOdds2 g
    let r := calculate_arbitrage best_odds1 best_odds2
    if r.is_arbitrage ∧ r.profit_pct ≥ min_profit then
      some
        { player1 := k.1
          player2 := k.2
          tournament := ((g.head?).map MatchRec.tournament).getD "Unknown"
          best_odds1 := best_odds1
          best_odds2 := best_odds2
          bookmaker1 := firstBookmaker1 g best_odds1
          bookmaker2 := firstBookmaker2 g best_odds2
          profit_pct := pyRound2 r.profit_pct
          stake1_pct := pyRound2 r.stake1_pct
          stake2_pct := pyRound2 r.stake2_pct
          match_date := ((g.head?).map MatchRec.match_date).getD ""
          match_time := ((g.head?).map MatchRec.match_time).getD "" }
    else none

/-- Embeds `OddsComparator.find_arbitrage_opportunities` (comparator.py
lines 180-243): group, then evaluate each group in insertion order. -/
def find_arbitrage_opportunities (ms : List MatchRec) (min_profit : ℚ) :
    List Opportunity :=
  (group_matches_by_players ms).filterMap fun p => processGroup min_profit p.1 p.2

/-- A value-bet dict: the original record spread together with the
added `calculated_margin` key (comparator.py lines 269-272). -/
structure ValueBet where
  base : MatchRec
  calculated_margin : ℚ
deriving DecidableEq, Repr

/-- The sort key relation of `value_bets.sort(key=lambda x:
x['calculated_margin'])`. -/
def vbLE (a b : ValueBet) : Prop :=
  a.calculated_margin ≤ b.calculated_margin

instance : DecidableRel vbLE := fun a b =>
  inferInstanceAs (Decidable (a.calculated_margin ≤ b.calculated_margin))

instance : IsTotal ValueBet vbLE :=
  ⟨fun a b => le_total a.calculated_margin b.calculated_margin⟩

instance : IsTrans ValueBet vbLE :=
  ⟨fun _ _ _ hab hbc => le_trans hab hbc⟩

/-- Embeds `OddsComparator.find_value_bets` (comparator.py lines
245-278). The Python guard is `if margin and margin < margin_threshold`:
a margin of `0.0` — the undefined-odds sentinel, but also a genuine
zero margin — is falsy and filtered out. Python's stable `list.sort`
is modelled by the stable `insertionSort`. -/
def find_value_bets (ms : List MatchRec) (margin_threshold : ℚ) : List ValueBet :=
  let value_bets := ms.filterMap fun m =>
    let margin := calculate_bookmaker_margin m.odds_player1 m.odds_player2
    if margin ≠ 0 ∧ margin < margin_threshold then some ⟨m, pyRound2 margin⟩
    else none
  value_bets.insertionSort vbLE

/-- One row of the bookmaker-comparison frame (comparator.py lines
305-309): `['Avg_Margin', 'Min_Margin', 'Max_Margin', 'Match_Count']`
indexed by bookmaker. -/
structure BookmakerStats where
  bookmaker : String
  avg_margin : ℚ
  min_margin : ℚ
  max_margin : ℚ
  match_count : Nat
deriving DecidableEq, Repr

/-- `min` of a pandas series of margins (non-empty at every use). -/
def minRat : List ℚ → ℚ
  | [] => 0
  | x :: xs => xs.foldl min x

/-- `max` of a pandas series of margins (non-empty at every use). -/
def maxRat : List ℚ → ℚ
  | [] => 0
  | x :: xs => xs.foldl max x

/-- Key order of `df.groupby('bookmaker')` (pandas sorts group keys). -/
def bkLE (a b : String × List MatchRec) : Prop := pyStrLt b.1 a.1 = false

instance : DecidableRel bkLE := fun a b =>
  inferInstanceAs (Decidable (pyStrLt b.1 a.1 = false))

/-- Sort key of `comparison.sort_values('Avg_Margin')`. -/
def statsLE (a b : BookmakerStats) : Prop := a.avg_margin ≤ b.avg_margin

instance : DecidableRel statsLE := fun a b =>
  inferInstanceAs (Decidable (a.avg_margin ≤ b.avg_margin))

/-- Embeds `OddsComparator.compare_bookmakers` (comparator.py lines
280-312): per-record margin via `calculate_bookmaker_margin` (its
`0.0` sentinel included), grouped by bookmaker (pandas sorts the group
keys), aggregated as mean/min/max/count with the three margins rounded
to two decimals, then stably sorted by average margin. -/
def compare_bookmakers (ms : List MatchRec) : List BookmakerStats :=
  if ms.isEmpty then []
  else
    let groups := (groupByKey MatchRec.bookmaker ms).insertionSort bkLE
    let rows := groups.map fun p =>
      let margins := p.2.map fun m =>
        calculate_bookmaker_margin m.odds_player1 m.odds_player2
      { bookmaker := p.1
        avg_margin := pyRound2 (margins.sum / (margins.length : ℚ))
        min_margin := pyRound2 (minRat margins)
        max_margin := pyRound2 (maxRat margins)
        match_count := margins.length }
    rows.insertionSort statsLE

/-- One row of the `find_best_odds_per_match` frame (comparator.py
lines 108-146). -/
structure BestOddsRow where
  player1 : String
  player2 : String
  odds_player1 : ℚ
  odds_player2 : ℚ
  tournament : String
  match_date : String
  match_time : String
  bookmaker_player1 : String
  bookmaker_player2 : String
deriving DecidableEq, Repr

/-- Key order of `df.groupby(['player1', 'player2'])`: lexicographic on
the raw (unnormalized) name pair. -/
def rawPairLE (a b : (String × String) × List MatchRec) : Prop :=
  pyStrLt a.1.1 b.1.1 = true ∨ (a.1.1 = b.1.1 ∧ pyStrLt b.1.2 a.1.2 = false)

instance : DecidableRel rawPairLE := fun a b =>
  inferInstanceAs
    (Decidable (pyStrLt a.1.1 b.1.1 = true ∨ (a.1.1 = b.1.1 ∧ pyStrLt b.1.2 a.1.2 = false)))

/-- Embeds `OddsComparator.find_best_odds_per_match` (comparator.py
lines 108-146). Note the groupby key is the RAW `(player1, player2)`
pair — no normalization and no slot re-mapping — and the per-column
`max` is over the raw `odds_player1` / `odds_player2` fields. The
bookmaker attribution re-scans the whole frame for the first row whose
raw fields match, as the boolean masks at lines 135-144 do. -/
def find_best_odds_per_match (ms : List MatchRec) : List BestOddsRow :=
  if ms.isEmpty then []
  else
    ((groupByKey (fun m => (m.player1, m.player2)) ms).insertionSort rawPairLE).map
      fun p =>
        let b1 := maxOdds1 p.2
        let b2 := maxOdds2 p.2
        { player1 := p.1.1
          player2 := p.1.2
          odds_player1 := b1
          odds_player2 := b2
          tournament := ((p.2.head?).map MatchRec.tournament).getD ""
          match_date := ((p.2.head?).map MatchRec.match_date).getD ""
          match_time := ((p.2.head?).map MatchRec.match_time).getD ""
          bookmaker_player1 :=
            ((ms.find? fun m => decide (m.player1 = p.1.1) &&
                decide (m.player2 = p.1.2) &&
                decide (m.odds_player1 = b1)).map MatchRec.bookmaker).getD ""
          bookmaker_player2 :=
            ((ms.find? fun m => decide (m.player1 = p.1.1) &&
                decide (m.player2 = p.1.2) &&
                decide (m.odds_player2 = b2)).map MatchRec.bookmaker).getD "" }

/-- Distinct elements in first-occurrence order. Models Python's
`list(set(...))` up to ordering (a CPython set iterates in an
unspecified, hash-dependent order; no claim here depends on it, and on
the empty input both are `[]`). -/
def dedupFirstAux (seen : List String) : List String → List String
  | [] => []
  | x :: xs =>
    if x ∈ seen then dedupFirstAux seen xs
    else x :: dedupFirstAux (x :: seen) xs

/-- The report dict of `generate_report` (comparator.py lines 314-351).
The `best_odds_sample` and `bookmaker_comparison` keys are only set
when the corresponding frame is non-empty, hence `Option`; the
wall-clock `timestamp` key is omitted. -/
structure Report where
  total_matches : Nat
  bookmakers : List String
  tournaments : List String
  best_odds_sample : Option (List BestOddsRow)
  arbitrage_count : Nat
  arbitrage_opportunities : List Opportunity
  value_bets_count : Nat
  value_bets_sample : List ValueBet
  bookmaker_comparison : Option (List BookmakerStats)
deriving DecidableEq, Repr

/-- Embeds `OddsComparator.generate_report` (comparator.py lines
314-351), with the source's hard-wired parameters `min_profit=0.0` and
`margin_threshold=3.0`. -/
def generate_report (ms : List MatchRec) : Report :=
  let best_odds_df := find_best_odds_per_match ms
  let arbitrage := find_arbitrage_opportunities ms 0
  let value_bets := find_value_bets ms 3
  let comparison_df := compare_bookmakers ms
  { total_matches := ms.length
    bookmakers := dedupFirstAux [] (ms.map MatchRec.bookmaker)
    tournaments := dedupFirstAux [] (ms.map MatchRec.tournament)
    best_odds_sample :=
      if best_odds_df.isEmpty then none else some (best_odds_df.take 10)
    arbitrage_count := arbitrage.length
    arbitrage_opportunities := arbitrage.take 10
    value_bets_count := value_bets.length
    value_bets_sample := value_bets.take 10
    bookmaker_comparison :=
      if comparison_df.isEmpty then none else some comparison_df }

/-! ### Ingestion validation (`utils/helpers.py` lines 252-269) -/

/-- A raw scraped dict before validation: any of the four required keys
may be absent (`none`). -/
structure RawMatch where
  player1 : Option String
  player2 : Option String
  odds_player1 : Option ℚ
  odds_player2 : Option ℚ
deriving DecidableEq, Repr

/-- Python truthiness of `match[field]` for a string field: `None` and
`""` are falsy. -/
def truthyString : Option String → Bool
  | none => false
  | some s => decide (s ≠ "")

/-- Python truthiness of `match[field]` for a numeric field: `None` and
`0.0` are falsy; every non-zero number (negative included) is truthy. -/
def truthyRat : Option ℚ → Bool
  | none => false
  | some q => decide (q ≠ 0)

/-- Embeds `validate_match_data` (helpers.py lines 252-269): `False` as
soon as one required field is absent or falsy, `True` otherwise. -/
def validate_match_data (r : RawMatch) : Bool :=
  truthyString r.player1 && truthyString r.player2 &&
    truthyRat r.odds_player1 && truthyRat r.odds_player2

/-! ### The spec's slot re-mapping (section 4.3), for comparison -/

/-- The per-record slot re-mapping the spec requires of best-odds
selection (spec section 4.3): a record contributes `odds_player1` to
the canonical slot occupied by its normalized `player1` and
`odds_player2` to the other slot. Stated from the spec's words, to be
compared with the code's raw-field selection (`maxOdds1` / `maxOdds2`). -/
def specSlotOdds (k : String × String) (m : MatchRec) : ℚ × ℚ :=
  if normalize_player_names m.player1 = k.1 then (m.odds_player1, m.odds_player2)
  else (m.odds_player2, m.odds_player1)

/-- Best odds per canonical slot under the spec's re-mapping: the
componentwise maximum of the re-mapped per-record odds. -/
def specBestSlotOdds (k : String × String) : List MatchRec → ℚ × ℚ
  | [] => (0, 0)
  | m :: rest =>
    rest.foldl
      (fun acc x =>
        let s := specSlotOdds k x
        (max acc.1 s.1, max acc.2 s.2))
      (specSlotOdds k m)

/-! ### Concrete records used as witnesses and counterexamples -/

/-- A matchup reported by a single source, with odds whose own inverse
sum `1/3 + 1/3 = 2/3` is strictly below one. -/
def oneRec : MatchRec :=
  { player1 := "Ann Aa", player2 := "Bea Bb", odds_player1 := 3, odds_player2 := 3,
    bookmaker := "source1", tournament := "T", match_date := "", match_time := "" }

/-- First leg of the spec's section-8 arbitrage scenario: odds
`(2.10, 2.05)` from one source. -/
def arbRecA : MatchRec :=
  { player1 := "Cara Cc", player2 := "Dee Dd",
    odds_player1 := 21 / 10, odds_player2 := 41 / 20,
    bookmaker := "source1", tournament := "T", match_date := "d1", match_time := "t1" }

/-- Second leg of the spec's section-8 arbitrage scenario: odds
`(1.95, 2.20)` from another source, players listed in the same order. -/
def arbRecB : MatchRec :=
  { player1 := "Cara Cc", player2 := "Dee Dd",
    odds_player1 := 39 / 20, odds_player2 := 11 / 5,
    bookmaker := "source2", tournament := "T", match_date := "d1", match_time := "t1" }

/-- The opportunity the detector emits for `[arbRecA, arbRecB]`: best
odds `(2.10, 2.20)`, profit `7.44%`, stakes `51.16% / 48.84%`. -/
def emittedOpp : Opportunity :=
  { player1 := "Cara Cc", player2 := "Dee Dd", tournament := "T",
    best_odds1 := 21 / 10, best_odds2 := 11 / 5,
    bookmaker1 := "source1", bookmaker2 := "source2",
    profit_pct := 186 / 25, stake1_pct := 1279 / 25, stake2_pct := 1221 / 25,
    match_date := "d1", match_time := "t1" }

/-- Same matchup as `swapped2` with the players listed first/second the
other way round; raw spelling differs but normalizes identically. -/
def swapped1 : MatchRec :=
  { player1 := "novak  djokovic", player2 := "Carlos Alcaraz",
    odds_player1 := 21 / 10, odds_player2 := 41 / 20,
    bookmaker := "source1", tournament := "T", match_date := "", match_time := "" }

/-- See `swapped1`. -/
def swapped2 : MatchRec :=
  { player1 := "Carlos  alcaraz", player2 := "Novak Djokovic",
    odds_player1 := 39 / 20, odds_player2 := 11 / 5,
    bookmaker := "source2", tournament := "T", match_date := "", match_time := "" }

/-- Source 1 lists the matchup as Alice-then-Bob with odds
`(1.5, 2.5)`. -/
def rawOrderA : MatchRec :=
  { player1 := "Alice Aa", player2 := "Bob Bb",
    odds_player1 := 3 / 2, odds_player2 := 5 / 2,
    bookmaker := "source1", tournament := "T", match_date := "", match_time := "" }

/-- Source 2 lists the same matchup as Bob-then-Alice, quoting Bob at
`1.5` and Alice at `2.5`. -/
def rawOrderB : MatchRec :=
  { player1 := "Bob Bb", player2 := "Alice Aa",
    odds_player1 := 3 / 2, odds_player2 := 5 / 2,
    bookmaker := "source2", tournament := "T", match_date := "", match_time := "" }

/-- A record with even odds `(2.0, 2.0)`: its bookmaker margin is a
well-defined `0.0`. -/
def evenOddsRec : MatchRec :=
  { player1 := "Ann Aa", player2 := "Bea Bb", odds_player1 := 2, odds_player2 := 2,
    bookmaker := "sourceA", tournament := "T", match_date := "", match_time := "" }

/-- A record with a well-defined margin of `5.0` from bookmaker
`sourceA`. -/
def marginRec : MatchRec :=
  { player1 := "Ann Aa", player2 := "Bea Bb", odds_player1 := 5 / 4, odds_player2 := 4,
    bookmaker := "sourceA", tournament := "T", match_date := "", match_time := "" }

/-- A record from the same bookmaker whose `odds_player1 = 0` makes the
margin undefined (the sentinel `0.0`). -/
def invalidOddsRec : MatchRec :=
  { player1 := "Cal Cc", player2 := "Dan Dd", odds_player1 := 0, odds_player2 := 2,
    bookmaker := "sourceA", tournament := "T", match_date := "", match_time := "" }

/-- The bookmaker-comparison row the code computes for the batch
`[marginRec, invalidOddsRec]`. -/
def sourceARow : BookmakerStats :=
  { bookmaker := "sourceA", avg_margin := 5 / 2, min_margin := 0,
    max_margin := 5, match_count := 2 }

/-- Margin `1.002%`: odds `(1, 50000/501)` give margin `501/500`. -/
def roundRecA : MatchRec :=
  { player1 := "Eve Ee", player2 := "Fay Ff",
    odds_player1 := 1, odds_player2 := 50000 / 501,
    bookmaker := "sourceA", tournament := "T", match_date := "", match_time := "" }

/-- Margin `1.001%`: odds `(1, 100000/1001)` give margin `1001/1000`,
smaller than the margin of `roundRecA` but rounding to the same
`1.0`. -/
def roundRecB : MatchRec :=
  { player1 := "Gil Gg", player2 := "Hal Hh",
    odds_player1 := 1, odds_player2 := 100000 / 1001,
    bookmaker := "sourceB", tournament := "T", match_date := "", match_time := "" }

/-- A raw record with all fields present but a negative odds value. -/
def negOddsRaw : RawMatch :=
  { player1 := some "Ann Aa", player2 := some "Bea Bb",
    odds_player1 := some (-2), odds_player2 := some 3 }

/-!
## Helper lemmas

### The two-string sort
-/

theorem charListLt_irrefl (l : List Char) : charListLt l l = false := by
  induction l with
  | nil => rfl
  | cons a as ih => simp [charListLt, ih]

theorem charListLt_asymm :
    ∀ {l1 l2 : List Char}, charListLt l1 l2 = true → charListLt l2 l1 = false := by
  intro l1
  induction l1 with
  | nil =>
    intro l2 h
    cases l2 with
    | nil => cases h
    | cons b bs => rfl
  | cons a as ih =>
    intro l2 h
    cases l2 with
    | nil => cases h
    | cons b bs =>
      simp only [charListLt, Bool.or_eq_true, Bool.and_eq_true, decide_eq_true_eq] at h
      simp only [charListLt, Bool.or_eq_false_iff, Bool.and_eq_false_iff,
        decide_eq_false_iff_not]
      rcases h with hab | ⟨hab, hrec⟩
      · exact ⟨asymm hab, Or.inl (ne_of_gt hab)⟩
      · subst hab
        exact ⟨lt_irrefl a, Or.inr (ih hrec)⟩

theorem charListLt_antisymm :
    ∀ {l1 l2 : List Char},
      charListLt l1 l2 = false → charListLt l2 l1 = false → l1 = l2 := by
  intro l1
  induction l1 with
  | nil =>
    intro l2 h12 _
    cases l2 with
    | nil => rfl
    | cons b bs => cases h12
  | cons a as ih =>
    intro l2 h12 h21
    cases l2 with
    | nil => cases h21
    | cons b bs =>
      simp only [charListLt, Bool.or_eq_false_iff, Bool.and_eq_false_iff,
        decide_eq_false_iff_not] at h12 h21
      obtain ⟨hab, hr1⟩ := h12
      obtain ⟨hba, hr2⟩ := h21
      have heq : a = b := le_antisymm (not_lt.mp hba) (not_lt.mp hab)
      subst heq
      rcases hr1 with h | h
      · exact absurd rfl h
      · rcases hr2 with h' | h'
        · exact absurd rfl h'
        · rw [ih h h']

theorem sortPair_comm (a b : String) : sortPair a b = sortPair b a := by
  unfold sortPair pyStrLt
  rcases hba : charListLt a.data b.data with _ | _ <;>
    rcases hab : charListLt b.data a.data with _ | _
  · have : a = b := by
      cases a; cases b
      exact congrArg String.mk (charListLt_antisymm hba hab)
    subst this
    simp
  · simp [hab, hba]
  · simp [hab, hba]
  · rw [charListLt_asymm hba] at hab
    cases hab

/-! ### Grouping -/

section GroupByLemmas

variable {κ α : Type} [DecidableEq κ]

theorem lookupG_cons_eq {q : κ × List α} {rest : List (κ × List α)} {k : κ}
    (h : q.1 = k) : lookupG k (q :: rest) = q.2 := by
  unfold lookupG
  rw [List.find?_cons_of_pos _ (by simpa using h)]
  rfl

theorem lookupG_cons_ne {q : κ × List α} {rest : List (κ × List α)} {k : κ}
    (h : q.1 ≠ k) : lookupG k (q :: rest) = lookupG k rest := by
  unfold lookupG
  rw [List.find?_cons_of_neg _ (by simpa using h)]

theorem lookupG_insertGrouped_self (k : κ) (x : α) :
    ∀ g : List (κ × List α), lookupG k (insertGrouped k x g) = lookupG k g ++ [x] := by
  intro g
  induction g with
  | nil => simp [insertGrouped, lookupG]
  | cons p rest ih =>
    by_cases hk : p.1 = k
    · simp only [insertGrouped, if_pos hk]
      rw [lookupG_cons_eq hk]
      exact lookupG_cons_eq hk
    · simp only [insertGrouped, if_neg hk]
      rw [lookupG_cons_ne hk, lookupG_cons_ne hk]
      exact ih

theorem lookupG_insertGrouped_other {k k' : κ} (x : α) (hne : k' ≠ k) :
    ∀ g : List (κ × List α), lookupG k' (insertGrouped k x g) = lookupG k' g := by
  intro g
  induction g with
  | nil =>
    simp only [insertGrouped, lookupG]
    rw [List.find?_cons_of_neg _ (by simpa using fun h => hne h.symm)]
  | cons p rest ih =>
    by_cases hk : p.1 = k
    · simp only [insertGrouped, if_pos hk]
      have hpk' : p.1 ≠ k' := fun h => hne (h.symm.trans hk)
      rw [lookupG_cons_ne hpk']
      exact lookupG_cons_ne hpk'
    · simp only [insertGrouped, if_neg hk]
      by_cases hk' : p.1 = k'
      · rw [lookupG_cons_eq hk', lookupG_cons_eq hk']
      · rw [lookupG_cons_ne hk', lookupG_cons_ne hk']
        exact ih

theorem insertGrouped_keys (k : κ) (x : α) :
    ∀ g : List (κ × List α),
      (insertGrouped k x g).map Prod.fst =
        if k ∈ g.map Prod.fst then g.map Prod.fst else g.map Prod.fst ++ [k] := by
  intro g
  induction g with
  | nil => simp [insertGrouped]
  | cons p rest ih =>
    by_cases hk : p.1 = k
    · simp [insertGrouped, hk]
    · simp only [insertGrouped, if_neg hk, List.map_cons, ih, List.mem_cons]
      by_cases hmem : k ∈ rest.map Prod.fst
      · simp [hmem, Ne.symm hk]
      · simp [hmem, Ne.symm hk]

theorem insertGrouped_keys_nodup {k : κ} {x : α} {g : List (κ × List α)}
    (h : (g.map Prod.fst).Nodup) : ((insertGrouped k x g).map Prod.fst).Nodup := by
  rw [insertGrouped_keys]
  by_cases hmem : k ∈ g.map Prod.fst
  · simpa [hmem] using h
  · simpa [hmem, List.nodup_append] using h

theorem insertGrouped_ne_nil {k : κ} {x : α} {g : List (κ × List α)}
    (h : ∀ p ∈ g, p.2 ≠ []) : ∀ p ∈ insertGrouped k x g, p.2 ≠ [] := by
  induction g with
  | nil =>
    intro p hp
    simp only [insertGrouped, List.mem_singleton] at hp
    subst hp
    simp
  | cons q rest ih =>
    intro p hp
    by_cases hk : q.1 = k
    · simp only [insertGrouped, if_pos hk, List.mem_cons] at hp
      rcases hp with hp | hp
      · subst hp; simp
      · exact h p (List.mem_cons_of_mem q hp)
    · simp only [insertGrouped, if_neg hk, List.mem_cons] at hp
      rcases hp with hp | hp
      · subst hp; exact h p (List.mem_cons_self p rest)
      · exact ih (fun q' hq' => h q' (List.mem_cons_of_mem q hq')) p hp

theorem join_insertGrouped (k : κ) (x : α) :
    ∀ g : List (κ × List α),
      ((insertGrouped k x g).map Prod.snd).flatten.Perm
        (((g.map Prod.snd).flatten) ++ [x]) := by
  intro g
  induction g with
  | nil => simp [insertGrouped]
  | cons p rest ih =>
    by_cases hk : p.1 = k
    · simp only [insertGrouped, if_pos hk, List.map_cons, List.flatten_cons,
        List.append_assoc]
      exact (@List.perm_append_comm _ [x] ((rest.map Prod.snd).flatten)).append_left p.2
    · simp only [insertGrouped, if_neg hk, List.map_cons, List.flatten_cons,
        List.append_assoc]
      exact ih.append_left p.2

theorem groupByKey_keys_nodup (key : α → κ) (xs : List α) :
    ((groupByKey key xs).map Prod.fst).Nodup := by
  suffices h : ∀ acc : List (κ × List α), (acc.map Prod.fst).Nodup →
      ((xs.foldl (fun g x => insertGrouped (key x) x g) acc).map Prod.fst).Nodup by
    exact h [] (by simp)
  induction xs with
  | nil => intro acc hacc; simpa using hacc
  | cons x xs ih =>
    intro acc hacc
    exact ih _ (insertGrouped_keys_nodup hacc)

theorem groupByKey_ne_nil (key : α → κ) (xs : List α) :
    ∀ p ∈ groupByKey key xs, p.2 ≠ [] := by
  suffices h : ∀ acc : List (κ × List α), (∀ p ∈ acc, p.2 ≠ []) →
      ∀ p ∈ xs.foldl (fun g x => insertGrouped (key x) x g) acc, p.2 ≠ [] by
    exact h [] (by simp)
  induction xs with
  | nil => intro acc hacc; simpa using hacc
  | cons x xs ih =>
    intro acc hacc
    exact ih _ (insertGrouped_ne_nil hacc)

theorem groupByKey_join_perm (key : α → κ) (xs : List α) :
    ((groupByKey key xs).map Prod.snd).flatten.Perm xs := by
  suffices h : ∀ acc : List (κ × List α),
      ((xs.foldl (fun g x => insertGrouped (key x) x g) acc).map Prod.snd).flatten.Perm
        (((acc.map Prod.snd).flatten) ++ xs) by
    simpa using h []
  induction xs with
  | nil => intro acc; simp
  | cons x xs ih =>
    intro acc
    have h1 := ih (insertGrouped (key x) x acc)
    have h2 := (join_insertGrouped (key x) x acc).append_right xs
    have h3 : (((acc.map Prod.snd).flatten ++ [x]) ++ xs) =
        (acc.map Prod.snd).flatten ++ (x :: xs) := by
      rw [List.append_assoc]
      rfl
    rw [h3] at h2
    exact h1.trans h2

theorem groupByKey_lookup (key : α → κ) (xs : List α) (k : κ) :
    lookupG k (groupByKey key xs) = xs.filter fun y => decide (key y = k) := by
  induction xs using List.reverseRecOn with
  | nil => simp [groupByKey, lookupG]
  | append_singleton xs x ih =>
    have hstep : groupByKey key (xs ++ [x]) =
        insertGrouped (key x) x (groupByKey key xs) := by
      simp [groupByKey, List.foldl_append]
    rw [hstep, List.filter_append]
    by_cases hk : key x = k
    · subst hk
      rw [lookupG_insertGrouped_self, ih]
      simp
    · rw [lookupG_insertGrouped_other x (Ne.symm hk), ih]
      simp [hk]

theorem lookupG_of_mem {g : List (κ × List α)} {p : κ × List α}
    (hnd : (g.map Prod.fst).Nodup) (hp : p ∈ g) : lookupG p.1 g = p.2 := by
  induction g with
  | nil => cases hp
  | cons q rest ih =>
    rcases List.mem_cons.mp hp with hq | hq
    · subst hq
      exact lookupG_cons_eq rfl
    · simp only [List.map_cons, List.nodup_cons] at hnd
      have hne : q.1 ≠ p.1 := by
        intro heq
        have hmem : p.1 ∈ rest.map Prod.fst := List.mem_map_of_mem Prod.fst hq
        rw [← heq] at hmem
        exact hnd.1 hmem
      rw [lookupG_cons_ne hne]
      exact ih hnd.2 hq

/-- The bucket of every group is exactly the input records carrying that
group's key, in input order. -/
theorem groupByKey_bucket_eq_filter (key : α → κ) (xs : List α)
    {p : κ × List α} (hp : p ∈ groupByKey key xs) :
    p.2 = xs.filter fun y => decide (key y = p.1) := by
  rw [← groupByKey_lookup key xs p.1]
  exact (lookupG_of_mem (groupByKey_keys_nodup key xs) hp).symm

end GroupByLemmas

/-- A `filterMap` whose body is a guarded `some` is a `map` after a
`filter`. -/
theorem filterMap_guard {α β : Type} (p : α → Prop) [DecidablePred p] (f : α → β) :
    ∀ xs : List α,
      (xs.filterMap fun x => if p x then some (f x) else none) =
        (xs.filter fun x => decide (p x)).map f := by
  intro xs
  induction xs with
  | nil => rfl
  | cons x xs ih => by_cases hx : p x <;> simp [hx, ih]

/-!
## Claim theorems
-/

/-- Claim C1: for every pair of positive best odds for which the
arbitrage detector emits an opportunity, the computed stake percentages
`stakeX_pct = (1/oddsX)/(1/odds1 + 1/odds2) * 100` sum to exactly 100. -/
theorem calculate_arbitrage_stakes_sum_100 (odds1 odds2 : ℚ)
    (h1 : 0 < odds1) (h2 : 0 < odds2)
    (hemit : (calculate_arbitrage odds1 odds2).is_arbitrage = true) :
    (calculate_arbitrage odds1 odds2).stake1_pct +
      (calculate_arbitrage odds1 odds2).stake2_pct = 100 := by
  have hno : ¬(odds1 ≤ 0 ∨ odds2 ≤ 0) := by push_neg; exact ⟨h1, h2⟩
  have hs : (0 : ℚ) < 1 / odds1 + 1 / odds2 := by positivity
  by_cases hlt : 1 / odds1 + 1 / odds2 < 1
  · simp only [calculate_arbitrage, if_neg hno, if_pos hlt]
    field_simp
    ring
  · simp only [calculate_arbitrage, if_neg hno, if_neg hlt] at hemit
    cases hemit

/-- Witness for C1 at the concrete odds pair `(3, 3)`. -/
theorem calculate_arbitrage_stakes_sum_100_w :
    (calculate_arbitrage 3 3).stake1_pct + (calculate_arbitrage 3 3).stake2_pct = 100 :=
  calculate_arbitrage_stakes_sum_100 3 3 (by norm_num) (by norm_num) (by decide)

/-- Claim C2: for positive odds, an opportunity passes the detector and
the `min_profit` gate exactly when `1/odds1 + 1/odds2 < 1` strictly and
the profit `(1/(1/odds1 + 1/odds2) - 1) * 100` is at least `min_profit`;
in particular nothing is emitted at the boundary
`1/odds1 + 1/odds2 = 1`. -/
theorem calculate_arbitrage_emits_iff (odds1 odds2 min_profit : ℚ)
    (h1 : 0 < odds1) (h2 : 0 < odds2) :
    (((calculate_arbitrage odds1 odds2).is_arbitrage = true ∧
        (calculate_arbitrage odds1 odds2).profit_pct ≥ min_profit) ↔
      (1 / odds1 + 1 / odds2 < 1 ∧
        (1 / (1 / odds1 + 1 / odds2) - 1) * 100 ≥ min_profit)) ∧
    (1 / odds1 + 1 / odds2 = 1 →
      (calculate_arbitrage odds1 odds2).is_arbitrage = false) := by
  have hno : ¬(odds1 ≤ 0 ∨ odds2 ≤ 0) := by push_neg; exact ⟨h1, h2⟩
  by_cases hlt : 1 / odds1 + 1 / odds2 < 1
  · simp only [calculate_arbitrage, if_neg hno, if_pos hlt]
    refine ⟨⟨fun h => ⟨hlt, h.2⟩, fun h => ⟨trivial, h.2⟩⟩, fun heq => ?_⟩
    rw [heq] at hlt
    exact absurd hlt (lt_irrefl 1)
  · simp only [calculate_arbitrage, if_neg hno, if_neg hlt]
    exact ⟨⟨fun h => absurd h.1 (by simp), fun h => absurd h.1 hlt⟩, fun _ => trivial⟩

/-- Witness for C2 at odds `(3, 3)` and threshold `10`. -/
theorem calculate_arbitrage_emits_iff_w :
    (((calculate_arbitrage 3 3).is_arbitrage = true ∧
        (calculate_arbitrage 3 3).profit_pct ≥ 10) ↔
      (1 / (3 : ℚ) + 1 / 3 < 1 ∧
        (1 / (1 / (3 : ℚ) + 1 / 3) - 1) * 100 ≥ 10)) ∧
    (1 / (3 : ℚ) + 1 / 3 = 1 → (calculate_arbitrage 3 3).is_arbitrage = false) :=
  calculate_arbitrage_emits_iff 3 3 10 (by norm_num) (by norm_num)

/-- Claim C10: grouping partitions the batch: the canonical keys are
pairwise distinct, every group is the non-empty, order-preserving
sublist of input records carrying its key (so each record lands in
exactly one group, unmodified), and the concatenation of all groups is
a permutation of the input batch. -/
theorem group_matches_partitions (ms : List MatchRec) :
    (((group_matches_by_players ms).map Prod.fst).Nodup) ∧
    (∀ p ∈ group_matches_by_players ms,
      p.2 ≠ [] ∧ p.2 = ms.filter fun m => decide (matchKey m = p.1)) ∧
    ((group_matches_by_players ms).map Prod.snd).flatten.Perm ms :=
  ⟨groupByKey_keys_nodup matchKey ms,
    fun p hp => ⟨groupByKey_ne_nil matchKey ms p hp,
      groupByKey_bucket_eq_filter matchKey ms hp⟩,
    groupByKey_join_perm matchKey ms⟩

/-- Witness for C10: the bucket clause evaluated on the one-record
batch. -/
theorem group_matches_partitions_w :
    ((("Ann Aa", "Bea Bb"), [oneRec]) : (String × String) × List MatchRec).2 ≠ [] ∧
    ((("Ann Aa", "Bea Bb"), [oneRec]) : (String × String) × List MatchRec).2 =
      [oneRec].filter fun m => decide (matchKey m = (("Ann Aa", "Bea Bb"), [oneRec]).1) :=
  (group_matches_partitions [oneRec]).2.1 (("Ann Aa", "Bea Bb"), [oneRec]) (by decide)

/-- Claim C4: two records whose normalized names coincide as an
unordered pair — the same matchup listed in opposite player order, or
with spellings that normalize identically — are grouped under exactly
one canonical key, giving one group of size two. -/
theorem group_matches_merges_swapped (m1 m2 : MatchRec)
    (h : (normalize_player_names m2.player1 = normalize_player_names m1.player2 ∧
          normalize_player_names m2.player2 = normalize_player_names m1.player1) ∨
         (normalize_player_names m2.player1 = normalize_player_names m1.player1 ∧
          normalize_player_names m2.player2 = normalize_player_names m1.player2)) :
    group_matches_by_players [m1, m2] = [(matchKey m1, [m1, m2])] := by
  have hk : matchKey m2 = matchKey m1 := by
    rcases h with ⟨ha, hb⟩ | ⟨ha, hb⟩
    · unfold matchKey
      rw [ha, hb]
      exact sortPair_comm _ _
    · unfold matchKey
      rw [ha, hb]
  show insertGrouped (matchKey m2) m2 (insertGrouped (matchKey m1) m1 []) = _
  rw [hk]
  simp [insertGrouped]

/-- Witness for C4: opposite listing order and a spelling difference
(`"novak  djokovic"` vs `"Novak Djokovic"`, `"Carlos  alcaraz"` vs
`"Carlos Alcaraz"`) still produce a single group of size two. -/
theorem group_matches_merges_swapped_w :
    group_matches_by_players [swapped1, swapped2] =
      [(matchKey swapped1, [swapped1, swapped2])] :=
  group_matches_merges_swapped swapped1 swapped2 (Or.inl ⟨by decide, by decide⟩)

/-- Claim C5: a matchup group holding exactly one record never yields
an arbitrage opportunity for its matchup, whatever that record's own
odds are. -/
theorem single_record_group_no_opportunity (ms : List MatchRec) (min_profit : ℚ)
    (k : String × String) (g : List MatchRec)
    (hg : (k, g) ∈ group_matches_by_players ms) (hlen : g.length = 1) :
    ∀ opp ∈ find_arbitrage_opportunities ms min_profit,
      (opp.player1, opp.player2) ≠ k := by
  intro opp hopp hkey
  rw [find_arbitrage_opportunities, List.mem_filterMap] at hopp
  obtain ⟨p, hp, hproc⟩ := hopp
  have h2 : ¬ p.2.length < 2 := by
    intro hlt
    simp only [processGroup, if_pos hlt] at hproc
    exact Option.noConfusion hproc
  have hopp_eq : opp.player1 = p.1.1 ∧ opp.player2 = p.1.2 := by
    simp only [processGroup, if_neg h2] at hproc
    split at hproc
    · simp only [Option.some.injEq] at hproc
      subst hproc
      exact ⟨rfl, rfl⟩
    · cases hproc
  have hpk : p.1 = k := by
    have hpair : (p.1.1, p.1.2) = k := by
      rw [← hopp_eq.1, ← hopp_eq.2]
      exact hkey
    simpa using hpair
  have hnd := groupByKey_keys_nodup matchKey ms
  have h1 : lookupG k (group_matches_by_players ms) = g :=
    lookupG_of_mem hnd hg
  have h2' : lookupG k (group_matches_by_players ms) = p.2 := by
    rw [← hpk]
    exact lookupG_of_mem hnd hp
  apply h2
  rw [← h2', h1, hlen]
  norm_num

/-- Witness for C5: in a batch holding the single-record matchup
`("Ann Aa", "Bea Bb")` (whose lone record's inverse-odds sum is `2/3 <
1`) next to a genuine two-source arbitrage matchup, the emitted
opportunity is not for the single-record matchup. -/
theorem single_record_group_no_opportunity_w :
    (emittedOpp.player1, emittedOpp.player2) ≠ ("Ann Aa", "Bea Bb") :=
  single_record_group_no_opportunity [oneRec, arbRecA, arbRecB] 0
    ("Ann Aa", "Bea Bb") [oneRec] (by decide) (by decide) emittedOpp (by decide)

/-- Claim C3 (code divergence, evaluated): two records for the same
matchup listed in opposite player order are correctly merged into one
canonical group, but best-odds selection then takes the per-slot
maximum of the RAW `odds_player1` / `odds_player2` fields without
re-mapping the swapped record, computing best odds `(1.5, 2.5)` and
finding no arbitrage — while the spec's slot re-mapping yields best
odds `(2.5, 2.5)`, whose inverse sum `0.8 < 1` is a genuine arbitrage
the code misses. -/
theorem swapped_records_best_odds_not_remapped :
    group_matches_by_players [rawOrderA, rawOrderB] =
      [(("Alice Aa", "Bob Bb"), [rawOrderA, rawOrderB])] ∧
    maxOdds1 [rawOrderA, rawOrderB] = 3 / 2 ∧
    maxOdds2 [rawOrderA, rawOrderB] = 5 / 2 ∧
    find_arbitrage_opportunities [rawOrderA, rawOrderB] 0 = [] ∧
    specBestSlotOdds ("Alice Aa", "Bob Bb") [rawOrderA, rawOrderB] = (5 / 2, 5 / 2) ∧
    1 / (5 / 2 : ℚ) + 1 / (5 / 2) < 1 := by
  decide

/-- Claim C6 (counterexample): a record whose `odds_player1` is the
strictly negative `-2` passes validation, although the claim says every
non-positive odds value is rejected. -/
theorem validate_match_data_accepts_negative_odds :
    validate_match_data negOddsRaw = true ∧
    negOddsRaw.odds_player1 = some (-2) ∧ ((-2 : ℚ) < 0) := by
  decide

/-- Claim C6 (amended): validation returns `False` exactly when a
player name is missing or empty, or an odds value is missing or equal
to zero — so a record with `oddsA = 0` is rejected, but strictly
negative odds pass (Python truthiness checks the fields). -/
theorem validate_match_data_false_iff (r : RawMatch) :
    validate_match_data r = false ↔
      (r.player1 = none ∨ r.player1 = some "" ∨
        r.player2 = none ∨ r.player2 = some "" ∨
        r.odds_player1 = none ∨ r.odds_player1 = some 0 ∨
        r.odds_player2 = none ∨ r.odds_player2 = some 0) := by
  obtain ⟨p1, p2, o1, o2⟩ := r
  rcases p1 with _ | s1 <;> rcases p2 with _ | s2 <;>
    rcases o1 with _ | q1 <;> rcases o2 with _ | q2 <;>
      simp [validate_match_data, truthyString, truthyRat] <;> tauto

/-- Claim C7 (counterexample): the record with even odds `(2.0, 2.0)`
has the well-defined margin `0.0`, strictly below the threshold `3`,
yet `find_value_bets` drops it (the guard `if margin and ...` treats
`0.0` as falsy); moreover the output is ordered by the margin rounded
to two decimals, so a pair of records whose true margins are `1.002%`
and `1.001%` comes back in descending true-margin order. -/
theorem find_value_bets_drops_zero_margin :
    (calculate_bookmaker_margin evenOddsRec.odds_player1 evenOddsRec.odds_player2 = 0 ∧
      (0 : ℚ) < evenOddsRec.odds_player1 ∧ (0 : ℚ) < evenOddsRec.odds_player2 ∧
      (0 : ℚ) < 3 ∧
      find_value_bets [evenOddsRec] 3 = []) ∧
    (calculate_bookmaker_margin roundRecA.odds_player1 roundRecA.odds_player2 >
        calculate_bookmaker_margin roundRecB.odds_player1 roundRecB.odds_player2 ∧
      find_value_bets [roundRecA, roundRecB] 3 =
        [⟨roundRecA, 1⟩, ⟨roundRecB, 1⟩]) := by
  decide

/-- Claim C7 (amended): `find_value_bets` returns exactly the records
whose margin is non-zero and strictly below the threshold (a margin
equal to `0.0` — the undefined-odds sentinel, but also a genuinely
zero margin — is dropped), each paired with its margin rounded to two
decimals, ordered ascending by that rounded margin. -/
theorem find_value_bets_spec (ms : List MatchRec) (t : ℚ) :
    (find_value_bets ms t).Perm
      ((ms.filter fun m =>
          decide (calculate_bookmaker_margin m.odds_player1 m.odds_player2 ≠ 0 ∧
            calculate_bookmaker_margin m.odds_player1 m.odds_player2 < t)).map
        fun m =>
          ⟨m, pyRound2 (calculate_bookmaker_margin m.odds_player1 m.odds_player2)⟩) ∧
    List.Sorted vbLE (find_value_bets ms t) := by
  constructor
  · show (List.insertionSort vbLE
        (ms.filterMap fun m =>
          if calculate_bookmaker_margin m.odds_player1 m.odds_player2 ≠ 0 ∧
              calculate_bookmaker_margin m.odds_player1 m.odds_player2 < t then
            some (⟨m, pyRound2
              (calculate_bookmaker_margin m.odds_player1 m.odds_player2)⟩ : ValueBet)
          else none)).Perm _
    rw [filterMap_guard
      (fun m => calculate_bookmaker_margin m.odds_player1 m.odds_player2 ≠ 0 ∧
        calculate_bookmaker_margin m.odds_player1 m.odds_player2 < t)
      (fun m =>
        (⟨m, pyRound2 (calculate_bookmaker_margin m.odds_player1 m.odds_player2)⟩ :
          ValueBet)) ms]
    exact List.perm_insertionSort vbLE _
  · exact List.sorted_insertionSort vbLE _

/-- Claim C8 (counterexample): next to a record with margin `5.0`, the
same bookmaker's record with `odds_player1 = 0` (undefined margin)
enters the aggregation as `0.0`: the average is pulled down to `2.5`
and the minimum to `0`, over a count of `2`. -/
theorem undefined_margin_contributes_zero :
    compare_bookmakers [marginRec, invalidOddsRec] = [sourceARow] ∧
    sourceARow.avg_margin = 5 / 2 ∧ sourceARow.match_count = 2 ∧
    invalidOddsRec.odds_player1 = 0 ∧
    calculate_bookmaker_margin marginRec.odds_player1 marginRec.odds_player2 = 5 := by
  decide

/-- Claim C8 (amended): every row of the bookmaker comparison
aggregates over ALL of that bookmaker's records — the count is the
number of its records and the average is the rounded mean of their
margins, where a record with a non-positive odds value contributes the
sentinel margin `0.0` instead of being excluded. -/
theorem compare_bookmakers_stats_over_all_records (ms : List MatchRec)
    (s : BookmakerStats) (hs : s ∈ compare_bookmakers ms) :
    s.match_count = (ms.filter fun m => decide (m.bookmaker = s.bookmaker)).length ∧
    s.avg_margin = pyRound2
      ((((ms.filter fun m => decide (m.bookmaker = s.bookmaker)).map fun m =>
          calculate_bookmaker_margin m.odds_player1 m.odds_player2).sum) /
        (((ms.filter fun m => decide (m.bookmaker = s.bookmaker)).length : ℚ))) ∧
    (∀ m ∈ ms.filter fun m => decide (m.bookmaker = s.bookmaker),
      (m.odds_player1 ≤ 0 ∨ m.odds_player2 ≤ 0) →
        calculate_bookmaker_margin m.odds_player1 m.odds_player2 = 0) := by
  unfold compare_bookmakers at hs
  by_cases hemp : ms.isEmpty
  · rw [if_pos hemp] at hs
    cases hs
  · rw [if_neg hemp] at hs
    rw [List.mem_insertionSort] at hs
    obtain ⟨p, hp, hs'⟩ := List.mem_map.mp hs
    rw [List.mem_insertionSort] at hp
    have hbucket := groupByKey_bucket_eq_filter MatchRec.bookmaker ms hp
    subst hs'
    refine ⟨?_, ?_, ?_⟩
    · simp only [List.length_map]
      rw [hbucket]
    · rw [hbucket]
      simp only [List.length_map]
    · intro m hm hbad
      simp only [calculate_bookmaker_margin, if_pos hbad]

/-- Witness for C8 (amended) on the two-record batch of the
counterexample. -/
theorem compare_bookmakers_stats_over_all_records_w :
    sourceARow.match_count =
      ([marginRec, invalidOddsRec].filter fun m =>
        decide (m.bookmaker = sourceARow.bookmaker)).length ∧
    sourceARow.avg_margin = pyRound2
      (((([marginRec, invalidOddsRec].filter fun m =>
            decide (m.bookmaker = sourceARow.bookmaker)).map fun m =>
          calculate_bookmaker_margin m.odds_player1 m.odds_player2).sum) /
        ((([marginRec, invalidOddsRec].filter fun m =>
            decide (m.bookmaker = sourceARow.bookmaker)).length : ℚ))) ∧
    (∀ m ∈ [marginRec, invalidOddsRec].filter fun m =>
        decide (m.bookmaker = sourceARow.bookmaker),
      (m.odds_player1 ≤ 0 ∨ m.odds_player2 ≤ 0) →
        calculate_bookmaker_margin m.odds_player1 m.odds_player2 = 0) :=
  compare_bookmakers_stats_over_all_records [marginRec, invalidOddsRec]
    sourceARow (by decide)

/-- Claim C9: the empty batch produces the well-formed all-zero/empty
report: zero total matches, empty bookmaker and tournament lists, zero
arbitrage opportunities and zero value bets (and no best-odds or
comparison entries). The embedding is total — division is the total
field operation of `ℚ` — so the computed value itself witnesses that no
failure occurs. -/
theorem generate_report_empty_batch :
    generate_report [] =
      { total_matches := 0, bookmakers := [], tournaments := [],
        best_odds_sample := none, arbitrage_count := 0,
        arbitrage_opportunities := [], value_bets_count := 0,
        value_bets_sample := [], bookmaker_comparison := none } := by
  decide

end TennisOdds
